import Mathlib

/-!
# EDF_Scheduler demo application (`main.c`)

A shallow embedding of `main.c`: the application entry point `main`, and one
loop iteration of each of the six periodic task bodies.  The FreeRTOS kernel
primitives the file calls (`xQueueCreate`, `xQueueSend`, `xQueueReceive`,
`vTaskDelayUntil`) and the serial driver are not part of `main.c`; they are
modelled from the specification and marked as such.
-/

namespace EDFScheduler

/-! ## Constants -/

/-- Macro `B1_PERIOD` (main.c line 81). -/
def B1_PERIOD : Nat := 50
/-- Macro `B2_PERIOD` (main.c line 82). -/
def B2_PERIOD : Nat := 50
/-- Macro `TX_PERIOD` (main.c line 83). -/
def TX_PERIOD : Nat := 100
/-- Macro `RX_PERIOD` (main.c line 84). -/
def RX_PERIOD : Nat := 20
/-- Macro `L1_PERIOD` (main.c line 85). -/
def L1_PERIOD : Nat := 10
/-- Macro `L2_PERIOD` (main.c line 86). -/
def L2_PERIOD : Nat := 100

/-- Number of values of `unsigned int` (the type of every `WakeTime`) and of
`TickType_t` on the 32-bit LPC21xx target. -/
def TICK_MODULUS : Nat := 2 ^ 32

/-- Number of values of `char` (the type of the button state variables; the
Keil ARM compiler treats plain `char` as unsigned). -/
def CHAR_MODULUS : Nat := 256

/-- A `char*`: `none` is the null pointer `(void*)0`, `some s` points at the
string literal `s`. -/
abbrev CharPtr := Option String

/-- The six tasks created by `main`. -/
inductive TaskId
  | B1 | B2 | Tx | Rx | L1 | L2
  deriving DecidableEq, Repr, Fintype

/-- The period each task passes to `vTaskDelayUntil` (and `main` passes to
`xTaskPeriodicCreate`). -/
def period : TaskId → Nat
  | .B1 => B1_PERIOD
  | .B2 => B2_PERIOD
  | .Tx => TX_PERIOD
  | .Rx => RX_PERIOD
  | .L1 => L1_PERIOD
  | .L2 => L2_PERIOD

/-! ## Kernel and driver primitives (not defined in `main.c`) -/

/-- Outcome of a queue operation: `pdPASS`, or the "channel full" / "channel
empty" failure of the specification. -/
inductive QueueStatus
  | pdPASS | errQUEUE_FULL | errQUEUE_EMPTY
  deriving DecidableEq, Repr

/-- Modelled from the spec: the Bounded Channel behind a `QueueHandle_t`
(FreeRTOS `queue.c` is not part of the sources).  A fixed `capacity` and the
ordered sequence of `items`, oldest first. -/
structure Queue where
  capacity : Nat
  items : List CharPtr
  deriving DecidableEq, Repr

/-- Modelled from the spec: `xQueueCreate(uxQueueLength, uxItemSize)` of the
absent `queue.c`.  The channel "is created once" with a capacity "fixed at
creation" and holds no item yet; `heapOk = false` stands for the allocation
failing, in which case the handle is `NULL`. -/
def xQueueCreate (heapOk : Bool) (uxQueueLength : Nat) : Option Queue :=
  if heapOk then some { capacity := uxQueueLength, items := [] } else none

/-- Modelled from the spec: `xQueueSend(q, &item, 0)` of the absent `queue.c`,
for the only timeout `main.c` uses, `(TickType_t)0`.  "If `len(items) <
capacity`, appends `item` and returns success immediately"; if full,
"`timeout = 0` returns a channel full failure immediately". -/
def xQueueSend (q : Queue) (item : CharPtr) : Queue × QueueStatus :=
  if q.items.length < q.capacity then
    ({ q with items := q.items ++ [item] }, QueueStatus.pdPASS)
  else
    (q, QueueStatus.errQUEUE_FULL)

/-- Modelled from the spec: `xQueueReceive(q, &buffer, 0)` of the absent
`queue.c`, for the only timeout `main.c` uses.  It "returns the oldest item
(strict FIFO)" by writing it to the caller's buffer, and "fails with channel
empty" on an empty queue, in which case the buffer is left as it was. -/
def xQueueReceive (q : Queue) (buffer : CharPtr) : Queue × CharPtr × QueueStatus :=
  match q.items with
  | [] => (q, buffer, QueueStatus.errQUEUE_EMPTY)
  | m :: rest => ({ q with items := rest }, m, QueueStatus.pdPASS)

/-- Modelled from the spec: `vTaskDelayUntil(&WakeTime, xTimeIncrement)` of the
absent `tasks.c`.  The release target "monotonically increases by
`period_ticks` each cycle": the call advances `WakeTime` by the increment
(in 32-bit unsigned arithmetic) and the task resumes at that tick.  The value
returned is the new content of `WakeTime`. -/
def vTaskDelayUntil (WakeTime xTimeIncrement : Nat) : Nat :=
  (WakeTime + xTimeIncrement) % TICK_MODULUS

/-- Modelled from the spec: `xTaskGetTickCount()` of the absent `tasks.c`; the
logical clock `tick`, as stored into an `unsigned int`. -/
def xTaskGetTickCount (tick : Nat) : Nat := tick % TICK_MODULUS

/-- The bytes of the array object a C string literal denotes: its characters
followed by the terminating NUL. -/
def cStringBytes (s : String) : List Nat := s.toList.map Char.toNat ++ [0]

/-- Modelled from the spec: `vSerialPutString(p, len)` of the absent serial
driver, the byte sink that "consumes a fixed-length byte buffer".  It reads
`len` bytes starting at `p`; the result is `none` when that read is not
confined to the object `p` points to (null pointer, or `len` larger than the
object). -/
def vSerialPutString (p : CharPtr) (len : Nat) : Option (List Nat) :=
  match p with
  | none => none
  | some s => if len ≤ (cStringBytes s).length then some ((cStringBytes s).take len) else none

/-! ## Observable events -/

/-- What a task iteration does to its collaborators: a call of `xQueueSend`
(with the item passed and the status returned) or a call of
`vSerialPutString` (with the pointer and the length passed). -/
inductive Event
  | queueSend (caller : TaskId) (item : CharPtr) (result : QueueStatus)
  | serialPut (s : CharPtr) (len : Nat)
  deriving DecidableEq, Repr

/-! ## `main` -/

/-- The constants `main` passes to the kernel: the six period macros and the
literal queue length. -/
structure Config where
  b1Period : Nat
  b2Period : Nat
  txPeriod : Nat
  rxPeriod : Nat
  l1Period : Nat
  l2Period : Nat
  queueLength : Nat
  deriving DecidableEq, Repr

/-- The configuration written in `main.c`. -/
def sourceConfig : Config :=
  { b1Period := B1_PERIOD, b2Period := B2_PERIOD, txPeriod := TX_PERIOD,
    rxPeriod := RX_PERIOD, l1Period := L1_PERIOD, l2Period := L2_PERIOD,
    queueLength := 3 }

/-- The results of the kernel calls `main` makes: whether `xQueueCreate`
obtains memory, and whether each `xTaskPeriodicCreate` succeeds. -/
structure MainEnv where
  queueHeapOk : Bool
  taskCreated : TaskId → Bool

/-- A call made by `main`, in program order. -/
inductive Call
  | prvSetupHardware
  | xQueueCreate (uxQueueLength : Nat)
  | xTaskPeriodicCreate (name : String) (priority : Nat) (period : Nat)
  | vTaskStartScheduler
  deriving DecidableEq, Repr

/-- The state `main` leaves behind: the global queue handle, the task handles
that were filled in, and the calls it made. -/
structure MainResult where
  GLB_Queue : Option Queue
  handlers : List TaskId
  calls : List Call

/-- Function `main` (main.c lines 130-201): hardware setup, `xQueueCreate`, six
`xTaskPeriodicCreate` calls whose return values are discarded, then
`vTaskStartScheduler`.  There is no branch in the body. -/
def main (cfg : Config) (env : MainEnv) : MainResult :=
  { GLB_Queue := xQueueCreate env.queueHeapOk cfg.queueLength
    handlers := [TaskId.B1, TaskId.B2, TaskId.Tx, TaskId.Rx, TaskId.L1, TaskId.L2].filter
      env.taskCreated
    calls :=
      [ Call.prvSetupHardware,
        Call.xQueueCreate cfg.queueLength,
        Call.xTaskPeriodicCreate "B1" 1 cfg.b1Period,
        Call.xTaskPeriodicCreate "B2" 1 cfg.b2Period,
        Call.xTaskPeriodicCreate "Tx" 1 cfg.txPeriod,
        Call.xTaskPeriodicCreate "Rx" 1 cfg.rxPeriod,
        Call.xTaskPeriodicCreate "L1" 1 cfg.l1Period,
        Call.xTaskPeriodicCreate "L2" 1 cfg.l2Period,
        Call.vTaskStartScheduler ] }

/-! ## Task bodies -/

/-- Local variables of `Button_1_Monitor` / `Button_2_Monitor`. -/
structure ButtonLocals where
  WakeTime : Nat
  Currentstate : Nat
  Previousstate : Nat
  ptrToMSG : CharPtr
  deriving DecidableEq, Repr

/-- Local variables of `Periodic_Transmitter`. -/
structure TxLocals where
  WakeTime : Nat
  ptrToMSG : CharPtr
  deriving DecidableEq, Repr

/-- Local variables of `Uart_Receiver`. -/
structure RxLocals where
  WakeTime : Nat
  ptrtoMSG : CharPtr
  deriving DecidableEq, Repr

/-- Local variables of `Load_1_Simulation` / `Load_2_Simulation`. -/
structure LoadLocals where
  WakeTime : Nat
  i : Nat
  deriving DecidableEq, Repr

/-- The block that occurs five times in the producers:
`if(GLB_Queue != 0) { ptrToMSG = lit; xQueueSend(GLB_Queue, &ptrToMSG, 0); }`.
Returns the queue, the new `ptrToMSG` and the events. -/
def guardedSend (caller : TaskId) (GLB_Queue : Option Queue) (ptrToMSG : CharPtr)
    (lit : String) : Option Queue × CharPtr × List Event :=
  match GLB_Queue with
  | none => (none, ptrToMSG, [])
  | some q =>
    let r := xQueueSend q (some lit)
    (some r.1, some lit, [Event.queueSend caller (some lit) r.2])

/-- One iteration of the loop of `Button_1_Monitor` (main.c lines 257-286);
`reading` is the value returned by `GPIO_read(PORT_1, PIN1)`. -/
def Button_1_Monitor (GLB_Queue : Option Queue) (l : ButtonLocals) (reading : Nat) :
    Option Queue × ButtonLocals × List Event :=
  let B1_Currentstate := reading % CHAR_MODULUS
  let r : Option Queue × CharPtr × List Event :=
    if B1_Currentstate = 1 ∧ l.Previousstate = 0 then
      guardedSend TaskId.B1 GLB_Queue l.ptrToMSG "B1 Rising Edge."
    else if B1_Currentstate = 0 ∧ l.Previousstate = 1 then
      guardedSend TaskId.B1 GLB_Queue l.ptrToMSG "B1 Falling Edge"
    else (GLB_Queue, l.ptrToMSG, [])
  (r.1,
   { WakeTime := vTaskDelayUntil l.WakeTime B1_PERIOD
     Currentstate := B1_Currentstate
     Previousstate := B1_Currentstate
     ptrToMSG := r.2.1 },
   r.2.2)

/-- One iteration of the loop of `Button_2_Monitor` (main.c lines 298-327);
`reading` is the value returned by `GPIO_read(PORT_1, PIN2)`. -/
def Button_2_Monitor (GLB_Queue : Option Queue) (l : ButtonLocals) (reading : Nat) :
    Option Queue × ButtonLocals × List Event :=
  let B2_Currentstate := reading % CHAR_MODULUS
  let r : Option Queue × CharPtr × List Event :=
    if B2_Currentstate = 1 ∧ l.Previousstate = 0 then
      guardedSend TaskId.B2 GLB_Queue l.ptrToMSG "B2 Rising Edge."
    else if B2_Currentstate = 0 ∧ l.Previousstate = 1 then
      guardedSend TaskId.B2 GLB_Queue l.ptrToMSG "B2 Falling Edge"
    else (GLB_Queue, l.ptrToMSG, [])
  (r.1,
   { WakeTime := vTaskDelayUntil l.WakeTime B2_PERIOD
     Currentstate := B2_Currentstate
     Previousstate := B2_Currentstate
     ptrToMSG := r.2.1 },
   r.2.2)

/-- One iteration of the loop of `Periodic_Transmitter` (main.c lines
336-345). -/
def Periodic_Transmitter (GLB_Queue : Option Queue) (l : TxLocals) :
    Option Queue × TxLocals × List Event :=
  let r := guardedSend TaskId.Tx GLB_Queue l.ptrToMSG "Tx ...String..."
  (r.1, { WakeTime := vTaskDelayUntil l.WakeTime TX_PERIOD, ptrToMSG := r.2.1 }, r.2.2)

/-- One iteration of the loop of `Uart_Receiver` (main.c lines 354-369). -/
def Uart_Receiver (GLB_Queue : Option Queue) (l : RxLocals) :
    Option Queue × RxLocals × List Event :=
  let r : Option Queue × CharPtr × List Event :=
    match GLB_Queue with
    | none => (none, l.ptrtoMSG, [])
    | some q =>
      let rcv := xQueueReceive q l.ptrtoMSG
      if rcv.2.2 = QueueStatus.pdPASS then
        (some rcv.1, rcv.2.1, [Event.serialPut rcv.2.1 16])
      else
        (some rcv.1, rcv.2.1, [])
  (r.1, { WakeTime := vTaskDelayUntil l.WakeTime RX_PERIOD, ptrtoMSG := r.2.1 }, r.2.2)

/-- The empty counting loop `for(i=0; i<limit; i++) {}` of the load tasks: the
value of `i` when the loop exits. -/
def busyLoop (limit : Nat) : Nat := Nat.iterate (fun i => i + 1) limit 0

/-- One iteration of the loop of `Load_1_Simulation` (main.c lines 379-386). -/
def Load_1_Simulation (l : LoadLocals) : LoadLocals :=
  { WakeTime := vTaskDelayUntil l.WakeTime L1_PERIOD, i := busyLoop 37000 }

/-- One iteration of the loop of `Load_2_Simulation` (main.c lines 395-402). -/
def Load_2_Simulation (l : LoadLocals) : LoadLocals :=
  { WakeTime := vTaskDelayUntil l.WakeTime L2_PERIOD, i := busyLoop 90000 }

/-! ## The running system -/

/-- The global `GLB_Queue` together with the local variables of the six task
bodies. -/
structure System where
  GLB_Queue : Option Queue
  b1 : ButtonLocals
  b2 : ButtonLocals
  tx : TxLocals
  rx : RxLocals
  l1 : LoadLocals
  l2 : LoadLocals

/-- The system once `main` has run and every task body has executed the
declarations in front of its loop; `t0 T` is the tick `xTaskGetTickCount`
returns to task `T`. -/
def boot (env : MainEnv) (t0 : TaskId → Nat) : System :=
  { GLB_Queue := (main sourceConfig env).GLB_Queue
    b1 := { WakeTime := xTaskGetTickCount (t0 TaskId.B1), Currentstate := 0,
            Previousstate := 0, ptrToMSG := none }
    b2 := { WakeTime := xTaskGetTickCount (t0 TaskId.B2), Currentstate := 0,
            Previousstate := 0, ptrToMSG := none }
    tx := { WakeTime := xTaskGetTickCount (t0 TaskId.Tx), ptrToMSG := none }
    rx := { WakeTime := xTaskGetTickCount (t0 TaskId.Rx), ptrtoMSG := none }
    l1 := { WakeTime := xTaskGetTickCount (t0 TaskId.L1), i := 0 }
    l2 := { WakeTime := xTaskGetTickCount (t0 TaskId.L2), i := 0 } }

/-- One loop iteration of one task; the button monitors carry the pin reading
they obtain. -/
inductive Action
  | b1 (reading : Nat)
  | b2 (reading : Nat)
  | tx
  | rx
  | l1
  | l2
  deriving DecidableEq, Repr

/-- The task an action belongs to. -/
def Action.task : Action → TaskId
  | .b1 _ => TaskId.B1
  | .b2 _ => TaskId.B2
  | .tx => TaskId.Tx
  | .rx => TaskId.Rx
  | .l1 => TaskId.L1
  | .l2 => TaskId.L2

/-- Run one loop iteration of the task named by the action. -/
def step (s : System) : Action → System × List Event
  | .b1 reading =>
    let r := Button_1_Monitor s.GLB_Queue s.b1 reading
    ({ s with GLB_Queue := r.1, b1 := r.2.1 }, r.2.2)
  | .b2 reading =>
    let r := Button_2_Monitor s.GLB_Queue s.b2 reading
    ({ s with GLB_Queue := r.1, b2 := r.2.1 }, r.2.2)
  | .tx =>
    let r := Periodic_Transmitter s.GLB_Queue s.tx
    ({ s with GLB_Queue := r.1, tx := r.2.1 }, r.2.2)
  | .rx =>
    let r := Uart_Receiver s.GLB_Queue s.rx
    ({ s with GLB_Queue := r.1, rx := r.2.1 }, r.2.2)
  | .l1 => ({ s with l1 := Load_1_Simulation s.l1 }, [])
  | .l2 => ({ s with l2 := Load_2_Simulation s.l2 }, [])

/-- Run an interleaving of loop iterations, collecting the events in order. -/
def run (s : System) : List Action → System × List Event
  | [] => (s, [])
  | a :: as =>
    let r := step s a
    let rest := run r.1 as
    (rest.1, r.2 ++ rest.2)

/-- The `WakeTime` variable of a task. -/
def System.wakeTime (s : System) : TaskId → Nat
  | .B1 => s.b1.WakeTime
  | .B2 => s.b2.WakeTime
  | .Tx => s.tx.WakeTime
  | .Rx => s.rx.WakeTime
  | .L1 => s.l1.WakeTime
  | .L2 => s.l2.WakeTime

/-- The items held behind a queue handle (none when the handle is `NULL`). -/
def itemsOf : Option Queue → List CharPtr
  | none => []
  | some q => q.items

/-- The items held in `GLB_Queue`. -/
def System.queueItems (s : System) : List CharPtr := itemsOf s.GLB_Queue

/-! ## Sequences of queue operations -/

/-- Issue one timeout-0 `xQueueSend` per message, in order; returns the final
queue and the status of each call. -/
def sendAll (q : Queue) : List CharPtr → Queue × List QueueStatus
  | [] => (q, [])
  | m :: ms =>
    let r := xQueueSend q m
    let rest := sendAll r.1 ms
    (rest.1, r.2 :: rest.2)

/-- Issue `k` timeout-0 `xQueueReceive` calls into one buffer; returns the
final queue and, for each call, the buffer content after it and its status. -/
def receiveN (q : Queue) (buffer : CharPtr) : Nat → Queue × List (CharPtr × QueueStatus)
  | 0 => (q, [])
  | k + 1 =>
    let r := xQueueReceive q buffer
    let rest := receiveN r.1 r.2.1 k
    (rest.1, (r.2.1, r.2.2) :: rest.2)

/-- The messages delivered by a series of receives: the buffer contents of the
calls that returned `pdPASS`. -/
def delivered (rs : List (CharPtr × QueueStatus)) : List CharPtr :=
  (rs.filter (fun r => r.2 = QueueStatus.pdPASS)).map Prod.fst

/-- The items whose `xQueueSend` returned `pdPASS`, in call order. -/
def sentOK (ev : List Event) : List CharPtr :=
  ev.filterMap (fun e =>
    match e with
    | Event.queueSend _ m QueueStatus.pdPASS => some m
    | _ => none)

/-- The pointers handed to `vSerialPutString`, in call order. -/
def outputs (ev : List Event) : List CharPtr :=
  ev.filterMap (fun e =>
    match e with
    | Event.serialPut m _ => some m
    | _ => none)

/-- The items a given task passed to `xQueueSend` (whatever the status), in
call order. -/
def attempts (caller : TaskId) (ev : List Event) : List CharPtr :=
  ev.filterMap (fun e =>
    match e with
    | Event.queueSend c m _ => if c = caller then some m else none
    | _ => none)

/-- The loop iteration of a task, as an action; `reading` is used by the two
button monitors only. -/
def Action.ofTask (reading : Nat) : TaskId → Action
  | .B1 => Action.b1 reading
  | .B2 => Action.b2 reading
  | .Tx => Action.tx
  | .Rx => Action.rx
  | .L1 => Action.l1
  | .L2 => Action.l2

/-- Number of loop iterations of task `T` in an interleaving. -/
def iterations (T : TaskId) (acts : List Action) : Nat :=
  acts.countP (fun a => decide (a.task = T))

/-- The pin reading of the latest iteration of button task `T` in an
interleaving, `init` when there is none. -/
def lastReadingFrom (T : TaskId) (init : Nat) : List Action → Nat
  | [] => init
  | Action.b1 r :: as => lastReadingFrom T (if T = TaskId.B1 then r else init) as
  | Action.b2 r :: as => lastReadingFrom T (if T = TaskId.B2 then r else init) as
  | _ :: as => lastReadingFrom T init as

/-- The pin reading an action carries is below `bound` (true of the actions
that read no pin). -/
def Action.readingBelow (bound : Nat) : Action → Bool
  | Action.b1 r => decide (r < bound)
  | Action.b2 r => decide (r < bound)
  | _ => true

/-- Every pin reading in the interleaving is below `bound`. -/
def readingsBelow (bound : Nat) (acts : List Action) : Bool :=
  acts.all (Action.readingBelow bound)

/-- The `Previousstate` variable of a button monitor (0 for the other tasks,
which have none). -/
def System.previousState (s : System) : TaskId → Nat
  | .B1 => s.b1.Previousstate
  | .B2 => s.b2.Previousstate
  | _ => 0

/-- The rising-edge literal of a button monitor. -/
def risingMsg : TaskId → CharPtr
  | .B1 => some "B1 Rising Edge."
  | .B2 => some "B2 Rising Edge."
  | _ => none

/-- The falling-edge literal of a button monitor. -/
def fallingMsg : TaskId → CharPtr
  | .B1 => some "B1 Falling Edge"
  | .B2 => some "B2 Falling Edge"
  | _ => none

/-- A sequence of edge messages that starts with the rising message `R`,
alternates strictly between `R` and the falling message `F`, and is in step
with the button state `prev`: it ends with `R` exactly when `prev = 1`. -/
def Alternates (R F : CharPtr) (prev : Nat) (l : List CharPtr) : Prop :=
  l.Chain' (fun x y => x ≠ y) ∧ (∀ m ∈ l, m = R ∨ m = F) ∧
  (l.head? = none ∨ l.head? = some R) ∧
  ((prev = 0 ∧ (l.getLast? = none ∨ l.getLast? = some F)) ∨
    (prev = 1 ∧ l.getLast? = some R)) ∧
  l.count R = l.count F + prev

/-- The string literals the producers assign to `ptrToMSG`. -/
def messageLiterals : List String :=
  ["B1 Rising Edge.", "B1 Falling Edge", "B2 Rising Edge.", "B2 Falling Edge",
   "Tx ...String..."]

/-- The actions of the three tasks that call `xQueueSend`. -/
def Action.isProducer : Action → Bool
  | Action.b1 _ => true
  | Action.b2 _ => true
  | Action.tx => true
  | _ => false

/-- What one loop iteration can do to `GLB_Queue` and its collaborators: no
queue traffic, a successful send, a send refused by a full queue, or a
receive that is passed on to the serial port. -/
def QueueEffect (a : Action) (before after : Option Queue) (ev : List Event) : Prop :=
  (before = none ∧ after = none ∧ ev = []) ∨
  ∃ q, before = some q ∧
    ((after = some q ∧ ev = [] ∧ (a = Action.rx → q.items = [])) ∨
     (∃ lit, lit ∈ messageLiterals ∧ q.items.length < q.capacity ∧ a.isProducer = true ∧
        after = some { q with items := q.items ++ [some lit] } ∧
        ev = [Event.queueSend a.task (some lit) QueueStatus.pdPASS]) ∨
     (∃ lit, lit ∈ messageLiterals ∧ ¬ q.items.length < q.capacity ∧ a.isProducer = true ∧
        after = some q ∧
        ev = [Event.queueSend a.task (some lit) QueueStatus.errQUEUE_FULL]) ∨
     (∃ m rest, q.items = m :: rest ∧ a = Action.rx ∧
        after = some { q with items := rest } ∧
        ev = [Event.serialPut m 16]))

/-! ## Synchronous periodic schedule -/

/-- Task `T` releases a job at tick `t`: its jobs run at the multiples of its
period. -/
def due (t : Nat) (T : TaskId) : Bool := decide (t % period T = 0)

/-- The tasks with a job at tick `t`, in the fixed order `order`. -/
def jobsAt (order : List TaskId) (t : Nat) : List TaskId := order.filter (due t)

/-- The pin reading of the job of a button monitor at tick `t`: reading number
`t / period` of its pin (`r1` for button 1, `r2` for button 2). -/
def jobReading (r1 r2 : Nat → Nat) (t : Nat) : TaskId → Nat
  | .B1 => r1 (t / B1_PERIOD)
  | .B2 => r2 (t / B2_PERIOD)
  | _ => 0

/-- The loop iteration executed by the job of task `T` at tick `t`. -/
def jobAction (r1 r2 : Nat → Nat) (t : Nat) (T : TaskId) : Action :=
  Action.ofTask (jobReading r1 r2 t T) T

/-- The interleaving produced by ticks `0 .. horizon - 1` when every job runs
atomically at its release tick and simultaneous jobs run in `order`. -/
def schedule (order : List TaskId) (r1 r2 : Nat → Nat) : Nat → List Action
  | 0 => []
  | t + 1 => schedule order r1 r2 t ++ (jobsAt order t).map (jobAction r1 r2 t)

/-- The canonical list of the six tasks. -/
def allTasks : List TaskId :=
  [TaskId.B1, TaskId.B2, TaskId.Tx, TaskId.Rx, TaskId.L1, TaskId.L2]

/-- The tasks that touch `GLB_Queue`. -/
def usesQueue : TaskId → Bool
  | .L1 => false
  | .L2 => false
  | _ => true

/-- Worst-case occupancy after a job, from an upper bound `n` on the occupancy
before it: a producer needs a free slot (`none` if the bound does not
guarantee one) and may add an item, the receiver removes one if there is one,
the load tasks leave the queue alone. -/
def absJob : TaskId → Nat → Option Nat
  | .Rx, n => some (n - 1)
  | .L1, n => some n
  | .L2, n => some n
  | _, n => if n < 3 then some (n + 1) else none

/-- Worst-case occupancy after a list of jobs. -/
def absJobs : List TaskId → Nat → Option Nat
  | [], n => some n
  | T :: Ts, n => (absJob T n).bind (absJobs Ts)

/-- Worst-case occupancy before tick `t`, starting from the bound `a` before
tick 0. -/
def absRun (order : List TaskId) (a : Nat) : Nat → Option Nat
  | 0 => some a
  | t + 1 => (absRun order a t).bind (absJobs (jobsAt order t))

/-- The occupancy bound at the start of every hyperperiod of 100 ticks. -/
def absStart (order : List TaskId) : Nat := (absRun order 0 100).getD 0

/-- The queue has capacity 3 and holds at most `n` items. -/
def QInv (s : System) (n : Nat) : Prop :=
  s.queueItems.length ≤ n ∧ ∀ q, s.GLB_Queue = some q → q.capacity = 3

/-! ## Lemmas on the queue -/

theorem sendAll_spec (ms : List CharPtr) :
    ∀ q : Queue, q.items.length ≤ q.capacity →
      (sendAll q ms).1.capacity = q.capacity ∧
      (sendAll q ms).1.items = q.items ++ ms.take (q.capacity - q.items.length) ∧
      (sendAll q ms).2 =
        List.replicate (min ms.length (q.capacity - q.items.length)) QueueStatus.pdPASS ++
        List.replicate (ms.length - (q.capacity - q.items.length)) QueueStatus.errQUEUE_FULL := by
  induction ms with
  | nil => intro q _; simp [sendAll]
  | cons m ms ih =>
    intro q hq
    by_cases hlt : q.items.length < q.capacity
    · have hs : xQueueSend q m = ({ q with items := q.items ++ [m] }, QueueStatus.pdPASS) := by
        simp [xQueueSend, hlt]
      have hq2 : ({ q with items := q.items ++ [m] } : Queue).items.length
          ≤ ({ q with items := q.items ++ [m] } : Queue).capacity := by
        simp; omega
      obtain ⟨h1, h2, h3⟩ := ih _ hq2
      obtain ⟨d, hd⟩ : ∃ d, q.capacity - q.items.length = d + 1 := ⟨_, (Nat.succ_pred_eq_of_pos (by omega)).symm⟩
      have hd2 : q.capacity - (q.items.length + 1) = d := by omega
      simp only [sendAll, hs]
      refine ⟨by simpa using h1, ?_, ?_⟩
      · rw [h2]; simp [hd, hd2]
      · rw [h3]; simp [hd, hd2, List.replicate_succ, Nat.succ_min_succ]
    · have hs : xQueueSend q m = (q, QueueStatus.errQUEUE_FULL) := by
        simp [xQueueSend, hlt]
      obtain ⟨h1, h2, h3⟩ := ih q hq
      have hz : q.capacity - q.items.length = 0 := by omega
      simp only [sendAll, hs]
      refine ⟨h1, ?_, ?_⟩
      · rw [h2]; simp [hz]
      · rw [h3]; simp [hz, List.replicate_succ]

theorem receiveN_spec (k : Nat) :
    ∀ (q : Queue) (buffer : CharPtr),
      (receiveN q buffer k).1.items = q.items.drop k ∧
      delivered (receiveN q buffer k).2 = q.items.take k ∧
      (receiveN q buffer k).2.map Prod.snd =
        List.replicate (min k q.items.length) QueueStatus.pdPASS ++
        List.replicate (k - q.items.length) QueueStatus.errQUEUE_EMPTY := by
  induction k with
  | zero => intro q b; simp [receiveN, delivered]
  | succ k ih =>
    intro q b
    rcases q with ⟨c, items⟩
    cases items with
    | nil =>
      obtain ⟨h1, h2, h3⟩ := ih ⟨c, []⟩ b
      simp only [receiveN, xQueueReceive]
      refine ⟨by simpa using h1, ?_, ?_⟩
      · simp only [delivered] at h2 ⊢
        simpa using h2
      · simp only [List.map_cons, h3]
        simp [List.replicate_succ]
    | cons m rest =>
      obtain ⟨h1, h2, h3⟩ := ih ⟨c, rest⟩ m
      simp only [receiveN, xQueueReceive]
      refine ⟨by simpa using h1, ?_, ?_⟩
      · simp only [delivered] at h2 ⊢
        simpa using h2
      · simp only [List.map_cons, h3]
        simp [List.replicate_succ, Nat.succ_min_succ]

/-! ## Lemmas on single iterations and runs -/

theorem guardedSend_none (c : TaskId) (p : CharPtr) (lit : String) :
    guardedSend c none p lit = (none, p, []) := rfl

theorem guardedSend_some (c : TaskId) (q : Queue) (p : CharPtr) (lit : String) :
    guardedSend c (some q) p lit =
      (some (xQueueSend q (some lit)).1, some lit,
        [Event.queueSend c (some lit) (xQueueSend q (some lit)).2]) := rfl

theorem run_append (as bs : List Action) :
    ∀ s : System, run s (as ++ bs) =
      ((run (run s as).1 bs).1, (run s as).2 ++ (run (run s as).1 bs).2) := by
  induction as with
  | nil => intro s; simp [run]
  | cons a as ih => intro s; simp [run, ih, List.append_assoc]

theorem send_effect (a : Action) (q : Queue) (lit : String) (hl : lit ∈ messageLiterals)
    (hp : a.isProducer = true) :
    QueueEffect a (some q) (some (xQueueSend q (some lit)).1)
      [Event.queueSend a.task (some lit) (xQueueSend q (some lit)).2] := by
  refine Or.inr ⟨q, rfl, ?_⟩
  by_cases h : q.items.length < q.capacity
  · exact Or.inr (Or.inl ⟨lit, hl, h, hp, by simp [xQueueSend, h], by simp [xQueueSend, h]⟩)
  · exact Or.inr (Or.inr (Or.inl ⟨lit, hl, h, hp, by simp [xQueueSend, h],
      by simp [xQueueSend, h]⟩))

theorem step_effect (s : System) (a : Action) :
    QueueEffect a s.GLB_Queue (step s a).1.GLB_Queue (step s a).2 := by
  rcases hq : s.GLB_Queue with _ | q
  · refine Or.inl ⟨rfl, ?_⟩
    cases a <;>
      simp [step, Button_1_Monitor, Button_2_Monitor, Periodic_Transmitter, Uart_Receiver,
        hq, guardedSend_none]
  · cases a with
    | b1 r =>
      simp only [step, Button_1_Monitor, hq]
      split_ifs
      · exact send_effect (Action.b1 r) q _ (by simp [messageLiterals]) rfl
      · exact send_effect (Action.b1 r) q _ (by simp [messageLiterals]) rfl
      · exact Or.inr ⟨q, rfl, Or.inl ⟨rfl, rfl, by simp⟩⟩
    | b2 r =>
      simp only [step, Button_2_Monitor, hq]
      split_ifs
      · exact send_effect (Action.b2 r) q _ (by simp [messageLiterals]) rfl
      · exact send_effect (Action.b2 r) q _ (by simp [messageLiterals]) rfl
      · exact Or.inr ⟨q, rfl, Or.inl ⟨rfl, rfl, by simp⟩⟩
    | tx =>
      simp only [step, Periodic_Transmitter, hq]
      exact send_effect Action.tx q _ (by simp [messageLiterals]) rfl
    | rx =>
      refine Or.inr ⟨q, rfl, ?_⟩
      rcases hi : q.items with _ | ⟨m, rest⟩
      · refine Or.inl ?_
        simp [step, Uart_Receiver, hq, xQueueReceive, hi]
      · refine Or.inr (Or.inr (Or.inr ⟨m, rest, rfl, rfl, ?_⟩))
        simp [step, Uart_Receiver, hq, xQueueReceive, hi]
    | l1 => exact Or.inr ⟨q, rfl, Or.inl ⟨by simp [step, hq], by simp [step], by simp⟩⟩
    | l2 => exact Or.inr ⟨q, rfl, Or.inl ⟨by simp [step, hq], by simp [step], by simp⟩⟩

theorem effect_capacity {a : Action} {b c : Option Queue} {ev : List Event}
    (h : QueueEffect a b c ev) : c.map Queue.capacity = b.map Queue.capacity := by
  rcases h with ⟨rfl, rfl, _⟩ | ⟨q, rfl, h⟩
  · rfl
  · rcases h with ⟨rfl, _⟩ | ⟨_, _, _, _, rfl, _⟩ | ⟨_, _, _, _, rfl, _⟩ | ⟨_, _, _, _, rfl, _⟩ <;>
      rfl

theorem effect_bound {a : Action} {b c : Option Queue} {ev : List Event}
    (h : QueueEffect a b c ev) (hb : ∀ q, b = some q → q.items.length ≤ q.capacity) :
    ∀ q, c = some q → q.items.length ≤ q.capacity := by
  rcases h with ⟨rfl, rfl, _⟩ | ⟨q, rfl, h⟩
  · intro q hq; cases hq
  · have hq := hb q rfl
    rcases h with ⟨rfl, _⟩ | ⟨_, _, hlt, _, rfl, _⟩ | ⟨_, _, _, _, rfl, _⟩ |
        ⟨m, rest, hi, _, rfl, _⟩
    · exact hb
    · intro q2 h2; cases h2; simp; omega
    · exact hb
    · intro q2 h2; cases h2; rw [hi] at hq; simp at hq ⊢; omega

theorem queueItems_def (s : System) : s.queueItems = itemsOf s.GLB_Queue := rfl

theorem effect_fifo {a : Action} {b c : Option Queue} {ev : List Event}
    (h : QueueEffect a b c ev) :
    itemsOf b ++ sentOK ev = outputs ev ++ itemsOf c := by
  rcases h with ⟨rfl, rfl, rfl⟩ | ⟨q, rfl, h⟩
  · simp [sentOK, outputs, itemsOf]
  · rcases h with ⟨rfl, rfl, _⟩ | ⟨_, _, _, _, rfl, rfl⟩ | ⟨_, _, _, _, rfl, rfl⟩ |
        ⟨m, rest, hi, _, rfl, rfl⟩ <;>
      simp [sentOK, outputs, itemsOf, *]

theorem sentOK_append (xs ys : List Event) : sentOK (xs ++ ys) = sentOK xs ++ sentOK ys := by
  simp [sentOK, List.filterMap_append]

theorem outputs_append (xs ys : List Event) : outputs (xs ++ ys) = outputs xs ++ outputs ys := by
  simp [outputs, List.filterMap_append]

theorem attempts_append (c : TaskId) (xs ys : List Event) :
    attempts c (xs ++ ys) = attempts c xs ++ attempts c ys := by
  simp [attempts, List.filterMap_append]

theorem run_capacity (as : List Action) :
    ∀ s : System, (run s as).1.GLB_Queue.map Queue.capacity = s.GLB_Queue.map Queue.capacity := by
  induction as with
  | nil => intro s; rfl
  | cons a as ih =>
    intro s
    simp only [run]
    rw [ih, effect_capacity (step_effect s a)]

theorem run_bound (as : List Action) :
    ∀ s : System, (∀ q, s.GLB_Queue = some q → q.items.length ≤ q.capacity) →
      ∀ q, (run s as).1.GLB_Queue = some q → q.items.length ≤ q.capacity := by
  induction as with
  | nil => intro s h; exact h
  | cons a as ih =>
    intro s h
    simp only [run]
    exact ih _ (effect_bound (step_effect s a) h)

theorem run_fifo (as : List Action) :
    ∀ s : System, s.queueItems ++ sentOK (run s as).2 =
      outputs (run s as).2 ++ (run s as).1.queueItems := by
  induction as with
  | nil => intro s; simp [run, sentOK, outputs]
  | cons a as ih =>
    intro s
    simp only [run, sentOK_append, outputs_append]
    have h1 := effect_fifo (step_effect s a)
    have h2 := ih (step s a).1
    simp only [queueItems_def] at h2 ⊢
    rw [← List.append_assoc, h1, List.append_assoc, h2, List.append_assoc]

theorem boot_queue (env : MainEnv) (t0 : TaskId → Nat) :
    (boot env t0).GLB_Queue = xQueueCreate env.queueHeapOk 3 := rfl

theorem step_wakeTime (s : System) (a : Action) (T : TaskId) :
    (step s a).1.wakeTime T =
      if a.task = T then vTaskDelayUntil (s.wakeTime T) (period T) else s.wakeTime T := by
  cases a <;> cases T <;>
    simp [step, System.wakeTime, Action.task, period, Button_1_Monitor, Button_2_Monitor,
      Periodic_Transmitter, Uart_Receiver, Load_1_Simulation, Load_2_Simulation]

theorem run_wakeTime (T : TaskId) (as : List Action) :
    ∀ s : System, s.wakeTime T < TICK_MODULUS →
      (run s as).1.wakeTime T = (s.wakeTime T + iterations T as * period T) % TICK_MODULUS := by
  induction as with
  | nil => intro s h; simp [run, iterations, Nat.mod_eq_of_lt h]
  | cons a as ih =>
    intro s h
    have hlt : (step s a).1.wakeTime T < TICK_MODULUS := by
      rw [step_wakeTime]
      split_ifs
      · exact Nat.mod_lt _ (by simp [TICK_MODULUS])
      · exact h
    simp only [run]
    rw [ih _ hlt, step_wakeTime]
    by_cases ha : a.task = T
    · simp only [ha, if_true, vTaskDelayUntil, iterations, List.countP_cons, decide_True]
      rw [Nat.mod_add_mod]
      congr 1
      ring
    · simp [ha, iterations, List.countP_cons]

theorem boot_wakeTime (env : MainEnv) (t0 : TaskId → Nat) (T : TaskId) :
    (boot env t0).wakeTime T = t0 T % TICK_MODULUS := by
  cases T <;> rfl

theorem ofTask_task (r : Nat) (T : TaskId) : (Action.ofTask r T).task = T := by
  cases T <;> rfl

theorem step_isSome (s : System) (a : Action) :
    (step s a).1.GLB_Queue.isSome = s.GLB_Queue.isSome := by
  have h := effect_capacity (step_effect s a)
  cases h1 : (step s a).1.GLB_Queue <;> cases h2 : s.GLB_Queue <;> simp [h1, h2] at h ⊢

theorem run_isSome (as : List Action) :
    ∀ s : System, (run s as).1.GLB_Queue.isSome = s.GLB_Queue.isSome := by
  induction as with
  | nil => intro s; rfl
  | cons a as ih => intro s; simp only [run]; rw [ih, step_isSome]

theorem boot_isSome (env : MainEnv) (t0 : TaskId → Nat) :
    (boot env t0).GLB_Queue.isSome = env.queueHeapOk := by
  rw [boot_queue]; cases env.queueHeapOk <;> rfl

/-- With a non-null queue, an iteration of button monitor `T` attempts the
rising message on a 0-to-1 change, the falling message on a 1-to-0 change and
nothing otherwise, and has no other event. -/
theorem step_button_attempts (s : System) (T : TaskId) (hT : T = TaskId.B1 ∨ T = TaskId.B2)
    (r : Nat) (hq : s.GLB_Queue.isSome = true) :
    attempts T (step s (Action.ofTask r T)).2 =
      (if r % 256 = 1 ∧ s.previousState T = 0 then [risingMsg T]
       else if r % 256 = 0 ∧ s.previousState T = 1 then [fallingMsg T] else []) ∧
    (step s (Action.ofTask r T)).2.length =
      (attempts T (step s (Action.ofTask r T)).2).length := by
  obtain ⟨q, hq⟩ := Option.isSome_iff_exists.mp hq
  rcases hT with rfl | rfl
  · simp only [Action.ofTask, step, Button_1_Monitor, hq, guardedSend_some, CHAR_MODULUS,
      System.previousState, risingMsg, fallingMsg]
    split_ifs <;> simp [attempts]
  · simp only [Action.ofTask, step, Button_2_Monitor, hq, guardedSend_some, CHAR_MODULUS,
      System.previousState, risingMsg, fallingMsg]
    split_ifs <;> simp [attempts]

/-- An iteration of a task sends nothing on behalf of another task. -/
theorem step_other_attempts (s : System) (a : Action) (T : TaskId) (h : a.task ≠ T) :
    attempts T (step s a).2 = [] := by
  rcases step_effect s a with ⟨_, _, he⟩ | ⟨q, _, he⟩
  · rw [he]; rfl
  · rcases he with ⟨_, he, _⟩ | ⟨_, _, _, _, _, he⟩ | ⟨_, _, _, _, _, he⟩ |
        ⟨_, _, _, _, _, he⟩ <;>
      rw [he] <;> simp [attempts, h]

theorem step_previousState (s : System) (a : Action) (T : TaskId) :
    (step s a).1.previousState T =
      match a, T with
      | Action.b1 r, TaskId.B1 => r % 256
      | Action.b2 r, TaskId.B2 => r % 256
      | _, _ => s.previousState T := by
  cases a <;> cases T <;>
    simp [step, System.previousState, Button_1_Monitor, Button_2_Monitor, CHAR_MODULUS]

theorem run_previousState (T : TaskId) (as : List Action) :
    ∀ s : System, readingsBelow 256 as = true →
      (run s as).1.previousState T = lastReadingFrom T (s.previousState T) as := by
  induction as with
  | nil => intro s _; rfl
  | cons a as ih =>
    intro s h
    simp only [readingsBelow, List.all_cons, Bool.and_eq_true] at h
    simp only [run]
    rw [ih _ (by simpa [readingsBelow] using h.2), step_previousState]
    cases a <;> cases T <;>
      simp_all [lastReadingFrom, Action.readingBelow, Nat.mod_eq_of_lt]

theorem boot_previousState (env : MainEnv) (t0 : TaskId → Nat) (T : TaskId) :
    (boot env t0).previousState T = 0 := by
  cases T <;> rfl

theorem alternates_rise {R F : CharPtr} (hne : R ≠ F) {l : List CharPtr}
    (h : Alternates R F 0 l) : Alternates R F 1 (l ++ [R]) := by
  obtain ⟨hc, hm, hh, hl, hcount⟩ := h
  have hl0 : l.getLast? = none ∨ l.getLast? = some F := by
    rcases hl with ⟨_, h⟩ | ⟨h, _⟩
    · exact h
    · omega
  refine ⟨?_, ?_, ?_, Or.inr ⟨rfl, by simp⟩, ?_⟩
  · refine List.Chain'.append hc (List.chain'_singleton R) ?_
    intro x hx y hy
    simp only [List.head?_cons, Option.mem_def, Option.some.injEq] at hy
    subst hy
    rcases hl0 with h | h
    · rw [h] at hx; cases hx
    · rw [h] at hx
      simp only [Option.mem_def, Option.some.injEq] at hx
      subst hx
      exact fun e => hne e.symm
  · intro m hmem
    rcases List.mem_append.mp hmem with h | h
    · exact hm m h
    · left; simpa using h
  · cases l with
    | nil => right; rfl
    | cons x xs => simpa using hh
  · have hFR : (F == R) = false := by
      simpa using fun e : F = R => hne e.symm
    simp [List.count_append, List.count_cons, hFR, hcount, hne]

theorem alternates_fall {R F : CharPtr} (hne : R ≠ F) {l : List CharPtr}
    (h : Alternates R F 1 l) : Alternates R F 0 (l ++ [F]) := by
  obtain ⟨hc, hm, hh, hl, hcount⟩ := h
  have hl1 : l.getLast? = some R := by
    rcases hl with ⟨h, _⟩ | ⟨_, h⟩
    · omega
    · exact h
  refine ⟨?_, ?_, ?_, Or.inl ⟨rfl, Or.inr (by simp)⟩, ?_⟩
  · refine List.Chain'.append hc (List.chain'_singleton F) ?_
    intro x hx y hy
    simp only [List.head?_cons, Option.mem_def, Option.some.injEq] at hy
    subst hy
    rw [hl1] at hx
    simp only [Option.mem_def, Option.some.injEq] at hx
    subst hx
    exact hne
  · intro m hmem
    rcases List.mem_append.mp hmem with h | h
    · exact hm m h
    · right; simpa using h
  · cases l with
    | nil => simp at hl1
    | cons x xs => simpa using hh
  · have hRF : (R == F) = false := by
      simpa using hne
    simp [List.count_append, List.count_cons, hRF, hcount, Ne.symm hne]

theorem rising_ne_falling (T : TaskId) (hT : T = TaskId.B1 ∨ T = TaskId.B2) :
    risingMsg T ≠ fallingMsg T := by
  rcases hT with rfl | rfl <;> decide

theorem task_eq_button (T : TaskId) (hT : T = TaskId.B1 ∨ T = TaskId.B2) (a : Action)
    (ha : a.task = T) (b : Nat) :
    ∃ r, a = Action.ofTask r T ∧ a.readingBelow b = decide (r < b) := by
  rcases hT with rfl | rfl <;> cases a <;> simp [Action.task] at ha
  · exact ⟨_, rfl, rfl⟩
  · exact ⟨_, rfl, rfl⟩

theorem step_button_prev (s : System) (T : TaskId) (hT : T = TaskId.B1 ∨ T = TaskId.B2)
    (r : Nat) : (step s (Action.ofTask r T)).1.previousState T = r % 256 := by
  rcases hT with rfl | rfl <;> simp [step_previousState, Action.ofTask]

theorem step_other_prev (s : System) (a : Action) (T : TaskId) (h : a.task ≠ T) :
    (step s a).1.previousState T = s.previousState T := by
  rw [step_previousState]
  cases a <;> cases T <;> simp_all [Action.task]

theorem step_alternates (T : TaskId) (hT : T = TaskId.B1 ∨ T = TaskId.B2) (s : System)
    (a : Action) (l0 : List CharPtr) (hq : s.GLB_Queue.isSome = true)
    (ha : a.readingBelow 2 = true)
    (hinv : Alternates (risingMsg T) (fallingMsg T) (s.previousState T) l0) :
    Alternates (risingMsg T) (fallingMsg T) ((step s a).1.previousState T)
      (l0 ++ attempts T (step s a).2) := by
  by_cases hta : a.task = T
  · obtain ⟨r, rfl, hr⟩ := task_eq_button T hT a hta 2
    rw [ha] at hr
    have hr2 : r < 2 := by simpa using hr.symm
    have hmod : r % 256 = r := Nat.mod_eq_of_lt (by omega)
    rw [step_button_prev s T hT, (step_button_attempts s T hT r hq).1, hmod]
    have hprev : s.previousState T = 0 ∨ s.previousState T = 1 := by
      rcases hinv.2.2.2.1 with ⟨h, _⟩ | ⟨h, _⟩
      · exact Or.inl h
      · exact Or.inr h
    have hr01 : r = 0 ∨ r = 1 := by omega
    rcases hr01 with rfl | rfl <;> rcases hprev with hp | hp <;> rw [hp] at hinv <;>
      simp only [hp] <;> norm_num
    · exact hinv
    · exact alternates_fall (rising_ne_falling T hT) hinv
    · exact alternates_rise (rising_ne_falling T hT) hinv
    · exact hinv
  · rw [step_other_attempts s a T hta, step_other_prev s a T hta, List.append_nil]
    exact hinv

theorem run_alternates (T : TaskId) (hT : T = TaskId.B1 ∨ T = TaskId.B2) (as : List Action) :
    ∀ (s : System) (l0 : List CharPtr), s.GLB_Queue.isSome = true →
      readingsBelow 2 as = true →
      Alternates (risingMsg T) (fallingMsg T) (s.previousState T) l0 →
      Alternates (risingMsg T) (fallingMsg T) ((run s as).1.previousState T)
        (l0 ++ attempts T (run s as).2) := by
  induction as with
  | nil => intro s l0 _ _ h; simpa [run, attempts] using h
  | cons a as ih =>
    intro s l0 hq hb hinv
    simp only [readingsBelow, List.all_cons, Bool.and_eq_true] at hb
    simp only [run, attempts_append]
    rw [← List.append_assoc]
    exact ih _ _ (by rw [step_isSome]; exact hq) (by simpa [readingsBelow] using hb.2)
      (step_alternates T hT s a l0 hq hb.1 hinv)

theorem alternates_nil (R F : CharPtr) : Alternates R F 0 [] := by
  simp [Alternates]

theorem readingsBelow_mono {b c : Nat} (h : b ≤ c) (as : List Action)
    (hb : readingsBelow b as = true) : readingsBelow c as = true := by
  simp only [readingsBelow, List.all_eq_true] at hb ⊢
  intro a ha
  have := hb a ha
  cases a <;> simp_all [Action.readingBelow] <;> omega

/-- Each producer literal occupies 16 bytes, and reading 16 bytes at a pointer
to it yields exactly those bytes. -/
theorem literal_bytes (lit : String) (h : lit ∈ messageLiterals) :
    (cStringBytes lit).length = 16 ∧
    vSerialPutString (some lit) 16 = some (cStringBytes lit) := by
  simp only [messageLiterals, List.mem_cons, List.mem_singleton, List.not_mem_nil,
    or_false] at h
  rcases h with rfl | rfl | rfl | rfl | rfl <;> exact ⟨by decide, by decide⟩

theorem effect_literals {a : Action} {b c : Option Queue} {ev : List Event}
    (h : QueueEffect a b c ev)
    (hb : ∀ m ∈ itemsOf b, ∃ lit ∈ messageLiterals, m = some lit) :
    (∀ m ∈ itemsOf c, ∃ lit ∈ messageLiterals, m = some lit) ∧
    ∀ e ∈ ev, ∃ lit ∈ messageLiterals,
      (∃ t res, e = Event.queueSend t (some lit) res) ∨ e = Event.serialPut (some lit) 16 := by
  rcases h with ⟨rfl, rfl, rfl⟩ | ⟨q, rfl, h⟩
  · simp [itemsOf]
  · simp only [itemsOf] at hb
    rcases h with ⟨rfl, rfl, _⟩ | ⟨lit, hl, _, _, rfl, rfl⟩ | ⟨lit, hl, _, _, rfl, rfl⟩ |
        ⟨m, rest, hi, _, rfl, rfl⟩
    · exact ⟨hb, by simp⟩
    · refine ⟨?_, ?_⟩
      · intro m hm
        simp only [itemsOf, List.mem_append, List.mem_singleton] at hm
        rcases hm with hm | rfl
        · exact hb m hm
        · exact ⟨lit, hl, rfl⟩
      · intro e he
        simp only [List.mem_singleton] at he
        exact ⟨lit, hl, Or.inl ⟨_, _, he⟩⟩
    · refine ⟨hb, ?_⟩
      intro e he
      simp only [List.mem_singleton] at he
      exact ⟨lit, hl, Or.inl ⟨_, _, he⟩⟩
    · rw [hi] at hb
      refine ⟨fun x hx => hb x (List.mem_cons_of_mem _ hx), ?_⟩
      intro e he
      simp only [List.mem_singleton] at he
      obtain ⟨lit, hl, rfl⟩ := hb m (List.mem_cons_self _ _)
      exact ⟨lit, hl, Or.inr he⟩

theorem run_literals (as : List Action) :
    ∀ s : System, (∀ m ∈ s.queueItems, ∃ lit ∈ messageLiterals, m = some lit) →
      ∀ e ∈ (run s as).2, ∃ lit ∈ messageLiterals,
        (∃ t res, e = Event.queueSend t (some lit) res) ∨
          e = Event.serialPut (some lit) 16 := by
  induction as with
  | nil => intro s _ e he; simp [run] at he
  | cons a as ih =>
    intro s hs e he
    have h := effect_literals (step_effect s a) hs
    simp only [run, List.mem_append] at he
    rcases he with he | he
    · exact h.2 e he
    · exact ih _ h.1 e he

theorem boot_queueItems (env : MainEnv) (t0 : TaskId → Nat) : (boot env t0).queueItems = [] := by
  simp only [System.queueItems, boot_queue]
  cases env.queueHeapOk <;> simp [xQueueCreate, itemsOf]

/-! ## Lemmas on the periodic schedule -/

theorem absJobs_filter_usesQueue (p : TaskId → Bool) (l : List TaskId) :
    ∀ n, absJobs ((l.filter usesQueue).filter p) n = absJobs (l.filter p) n := by
  induction l with
  | nil => intro n; rfl
  | cons T l ih =>
    intro n
    by_cases hu : usesQueue T = true
    · rw [List.filter_cons_of_pos hu]
      by_cases hp : p T = true
      · rw [List.filter_cons_of_pos hp, List.filter_cons_of_pos hp]
        simp only [absJobs]
        congr 1
        funext k
        exact ih k
      · rw [List.filter_cons_of_neg hp, List.filter_cons_of_neg hp]
        exact ih n
    · rw [List.filter_cons_of_neg hu, ih n]
      have hid : absJob T n = some n := by
        cases T <;> simp [usesQueue] at hu <;> rfl
      by_cases hp : p T = true
      · rw [List.filter_cons_of_pos hp]
        simp [absJobs, hid]
      · rw [List.filter_cons_of_neg hp]

theorem absRun_filter_usesQueue (order : List TaskId) (a : Nat) :
    ∀ t, absRun (order.filter usesQueue) a t = absRun order a t := by
  intro t
  induction t with
  | zero => rfl
  | succ t ih =>
    simp only [absRun, ih, jobsAt]
    congr 1
    funext n
    exact absJobs_filter_usesQueue (due t) order n

set_option maxRecDepth 100000 in
set_option maxHeartbeats 4000000 in
theorem hyperperiod_fixpoint_queue_tasks :
    ∀ a b c d : TaskId, [a, b, c, d].Perm [TaskId.B1, TaskId.B2, TaskId.Tx, TaskId.Rx] →
      absRun [a, b, c, d] (absStart [a, b, c, d]) 100 = some (absStart [a, b, c, d]) := by
  decide

theorem hyperperiod_fixpoint (order : List TaskId) (h : order.Perm allTasks) :
    absRun order (absStart order) 100 = some (absStart order) := by
  have hp : (order.filter usesQueue).Perm [TaskId.B1, TaskId.B2, TaskId.Tx, TaskId.Rx] :=
    h.filter usesQueue
  have hs : absStart (order.filter usesQueue) = absStart order := by
    simp only [absStart, absRun_filter_usesQueue]
  rw [← absRun_filter_usesQueue, ← hs]
  have hlen := hp.length_eq
  match hf : order.filter usesQueue, hlen with
  | [a, b, c, d], _ =>
    rw [hf] at hp
    exact hyperperiod_fixpoint_queue_tasks a b c d hp

theorem absRun_defined (order : List TaskId) (a : Nat) :
    ∀ (N : Nat) (x : Nat), absRun order a N = some x →
      ∀ i, i ≤ N → ∃ b, absRun order a i = some b := by
  intro N
  induction N with
  | zero =>
    intro x hx i hi
    have : i = 0 := by omega
    subst this
    exact ⟨x, hx⟩
  | succ N ih =>
    intro x hx i hi
    rcases Nat.lt_or_ge i (N + 1) with hlt | hge
    · simp only [absRun] at hx
      obtain ⟨b, hb, _⟩ := Option.bind_eq_some.mp hx
      exact ih b hb i (by omega)
    · have : i = N + 1 := by omega
      subst this
      exact ⟨x, hx⟩

theorem jobsAt_mod (order : List TaskId) (t : Nat) : jobsAt order t = jobsAt order (t % 100) := by
  simp only [jobsAt]
  congr 1
  funext T
  cases T <;>
    simp only [due, period, B1_PERIOD, B2_PERIOD, TX_PERIOD, RX_PERIOD, L1_PERIOD, L2_PERIOD] <;>
    congr 1 <;> apply propext <;> omega

/-- One job respects the worst-case occupancy: if the bound `n` admits the job
of task `T`, the occupancy afterwards is within the new bound and no
`xQueueSend` of the job was refused. -/
theorem job_sound (T : TaskId) (r : Nat) (s : System) (n n' : Nat)
    (habs : absJob T n = some n') (hinv : QInv s n) :
    QInv (step s (Action.ofTask r T)).1 n' ∧
    ∀ c m res, Event.queueSend c m res ∈ (step s (Action.ofTask r T)).2 →
      res = QueueStatus.pdPASS := by
  obtain ⟨hlen, hcap⟩ := hinv
  simp only [System.queueItems] at hlen
  simp only [QInv, System.queueItems]
  rcases step_effect s (Action.ofTask r T) with ⟨hb, ha, he⟩ | ⟨q, hb, heff⟩
  · rw [ha, he]
    simp [itemsOf]
  · have hc := hcap q hb
    rw [hb] at hlen
    simp only [itemsOf] at hlen
    rcases heff with ⟨ha, he, hrx⟩ | ⟨lit, _, hlt, hp, ha, he⟩ | ⟨lit, _, hfull, hp, ha, he⟩ |
        ⟨m, rest, hi, harx, ha, he⟩
    · rw [ha, he]
      refine ⟨⟨?_, ?_⟩, by simp⟩
      · simp only [itemsOf]
        cases T <;> simp [absJob, Action.ofTask] at habs hrx <;> first
          | omega
          | (simp [hrx])
      · intro q2 h2; cases h2; exact hc
    · rw [ha, he]
      refine ⟨⟨?_, ?_⟩, by simp⟩
      · simp only [itemsOf, List.length_append, List.length_singleton]
        cases T <;> simp [absJob, Action.ofTask, Action.isProducer] at habs hp <;> omega
      · intro q2 h2; cases h2; exact hc
    · exfalso
      cases T <;> simp [absJob, Action.ofTask, Action.isProducer] at habs hp <;> omega
    · rw [ha, he]
      refine ⟨⟨?_, ?_⟩, by simp⟩
      · rw [hi] at hlen
        simp only [itemsOf, List.length_cons] at hlen ⊢
        cases T <;> simp [absJob, Action.ofTask] at habs harx
        omega
      · intro q2 h2; cases h2; exact hc

theorem jobs_sound (r1 r2 : Nat → Nat) (t : Nat) (Ts : List TaskId) :
    ∀ (s : System) (n n' : Nat), absJobs Ts n = some n' → QInv s n →
      QInv (run s (Ts.map (jobAction r1 r2 t))).1 n' ∧
      ∀ c m res, Event.queueSend c m res ∈ (run s (Ts.map (jobAction r1 r2 t))).2 →
        res = QueueStatus.pdPASS := by
  induction Ts with
  | nil =>
    intro s n n' h hinv
    simp only [absJobs, Option.some.injEq] at h
    subst h
    simp [run, hinv]
  | cons T Ts ih =>
    intro s n n' h hinv
    simp only [absJobs] at h
    obtain ⟨k, hk, hrest⟩ := Option.bind_eq_some.mp h
    have h1 := job_sound T (jobReading r1 r2 t T) s n k hk hinv
    have h2 := ih _ k n' hrest h1.1
    simp only [List.map_cons, run, List.mem_append]
    refine ⟨h2.1, ?_⟩
    intro c m res hmem
    rcases hmem with hmem | hmem
    · exact h1.2 c m res hmem
    · exact h2.2 c m res hmem

theorem schedule_sound (order : List TaskId) (horder : order.Perm allTasks)
    (r1 r2 : Nat → Nat) (s : System) (hs : QInv s 0) :
    ∀ horizon : Nat,
      (∃ b, absRun order (absStart order) (horizon % 100) = some b ∧
        QInv (run s (schedule order r1 r2 horizon)).1 b) ∧
      ∀ c m res, Event.queueSend c m res ∈ (run s (schedule order r1 r2 horizon)).2 →
        res = QueueStatus.pdPASS := by
  have hfix := hyperperiod_fixpoint order horder
  intro horizon
  induction horizon with
  | zero =>
    refine ⟨⟨absStart order, rfl, ?_⟩, by simp [schedule, run]⟩
    exact ⟨by have := hs.1; simp only [schedule, run]; omega, hs.2⟩
  | succ t ih =>
    obtain ⟨⟨b, hb, hinv⟩, hpass⟩ := ih
    have hlt : t % 100 < 100 := Nat.mod_lt _ (by norm_num)
    obtain ⟨b', hb'⟩ := absRun_defined order (absStart order) 100 _ hfix (t % 100 + 1) (by omega)
    have hjobs : absJobs (jobsAt order t) b = some b' := by
      rw [jobsAt_mod]
      simpa [absRun, hb] using hb'
    have hstep := jobs_sound r1 r2 t (jobsAt order t) _ b b' hjobs hinv
    simp only [schedule, run_append, List.mem_append]
    refine ⟨?_, ?_⟩
    · by_cases hwrap : t % 100 + 1 = 100
      · have h0 : (t + 1) % 100 = 0 := by omega
        rw [hwrap, hfix] at hb'
        simp only [Option.some.injEq] at hb'
        rw [h0]
        exact ⟨absStart order, rfl, by rw [hb']; exact hstep.1⟩
      · have h1 : (t + 1) % 100 = t % 100 + 1 := by omega
        rw [h1]
        exact ⟨b', hb', hstep.1⟩
    · intro c m res hmem
      rcases hmem with hmem | hmem
      · exact hpass c m res hmem
      · exact hstep.2 c m res hmem

theorem boot_QInv (env : MainEnv) (t0 : TaskId → Nat) : QInv (boot env t0) 0 := by
  refine ⟨by rw [boot_queueItems]; simp, ?_⟩
  intro q hq
  rw [boot_queue] at hq
  cases h : env.queueHeapOk <;> simp [xQueueCreate, h] at hq
  subst hq
  rfl

/-- Behind a null handle every guard `GLB_Queue != 0` fails: a run of loop
iterations leaves the handle null and produces no event. -/
theorem run_null (as : List Action) :
    ∀ s : System, s.GLB_Queue = none →
      (run s as).1.GLB_Queue = none ∧ (run s as).2 = [] := by
  induction as with
  | nil => intro s h; exact ⟨h, rfl⟩
  | cons a as ih =>
    intro s h
    rcases step_effect s a with ⟨_, ha, he⟩ | ⟨q, hb, _⟩
    · have h2 := ih _ ha
      simp only [run]
      exact ⟨h2.1, by rw [he, h2.2]; rfl⟩
    · rw [h] at hb; cases hb

/-! ## Main results -/

/-- C1: drift-free periodicity.  With `vTaskDelayUntil(&WakeTime, P)` advancing
`WakeTime` by `P`, for each of the six tasks (periods 50, 50, 100, 20, 10,
100), every start tick `t0` and every interleaving of loop iterations, the
release target held in `WakeTime` after the task has completed `n` iterations
is `(t0 + n * P) mod 2^32`; one more iteration of the task moves it by exactly
`P` ticks (mod 2^32), whatever the other tasks and the pin readings did. -/
theorem C1_drift_free_release (env : MainEnv) (t0 : TaskId → Nat) (T : TaskId)
    (acts : List Action) (r : Nat) :
    (period TaskId.B1 = 50 ∧ period TaskId.B2 = 50 ∧ period TaskId.Tx = 100 ∧
      period TaskId.Rx = 20 ∧ period TaskId.L1 = 10 ∧ period TaskId.L2 = 100) ∧
    (run (boot env t0) acts).1.wakeTime T =
      (t0 T + iterations T acts * period T) % 2 ^ 32 ∧
    (run (boot env t0) (acts ++ [Action.ofTask r T])).1.wakeTime T =
      ((run (boot env t0) acts).1.wakeTime T + period T) % 2 ^ 32 ∧
    ((run (boot env t0) (acts ++ [Action.ofTask r T])).1.wakeTime T + 2 ^ 32
        - (run (boot env t0) acts).1.wakeTime T) % 2 ^ 32 = period T := by
  have hb : (boot env t0).wakeTime T < TICK_MODULUS := by
    rw [boot_wakeTime]; exact Nat.mod_lt _ (by simp [TICK_MODULUS])
  have hclosed := run_wakeTime T acts (boot env t0) hb
  have hnext : (run (boot env t0) (acts ++ [Action.ofTask r T])).1.wakeTime T =
      ((run (boot env t0) acts).1.wakeTime T + period T) % 2 ^ 32 := by
    rw [run_append]
    simp only [run]
    rw [step_wakeTime, ofTask_task]
    simp [vTaskDelayUntil, TICK_MODULUS]
  have hw : (run (boot env t0) acts).1.wakeTime T < 2 ^ 32 := by
    rw [hclosed]; exact Nat.mod_lt _ (by simp [TICK_MODULUS])
  have hp : period T ≤ 100 := by cases T <;> decide
  refine ⟨by decide, ?_, hnext, ?_⟩
  · rw [hclosed, boot_wakeTime]
    simp [TICK_MODULUS, Nat.mod_add_mod]
  · rw [hnext]
    generalize (run (boot env t0) acts).1.wakeTime T = w at hw
    generalize period T = P at hp
    omega

/-- C2: capacity bound.  `main` creates `GLB_Queue` with capacity 3, and in
every state reached by any interleaving of loop iterations of the six task
bodies the queue keeps capacity 3 and holds at most 3 items. -/
theorem C2_queue_capacity_bound (env : MainEnv) (t0 : TaskId → Nat) (acts : List Action) :
    (main sourceConfig env).GLB_Queue = xQueueCreate env.queueHeapOk 3 ∧
    (run (boot env t0) acts).1.GLB_Queue.map Queue.capacity =
      (if env.queueHeapOk then some 3 else none) ∧
    (run (boot env t0) acts).1.queueItems.length ≤ 3 := by
  have hcap := run_capacity acts (boot env t0)
  have hbound := run_bound acts (boot env t0)
  rw [boot_queue] at hcap hbound
  refine ⟨rfl, ?_, ?_⟩
  · rw [hcap]; cases env.queueHeapOk <;> simp [xQueueCreate]
  · rcases hq : (run (boot env t0) acts).1.GLB_Queue with _ | q
    · simp [System.queueItems, itemsOf, hq]
    · have h1 := hbound (by
        intro q0 h0
        cases hh : env.queueHeapOk <;> simp [xQueueCreate, hh] at h0
        subst h0; simp) q hq
      rw [hq] at hcap
      cases hh : env.queueHeapOk <;> simp [xQueueCreate, hh] at hcap
      simp only [System.queueItems, itemsOf, hq]
      omega

/-- C3: FIFO delivery.  For every interleaving of loop iterations, the
sequence of pointers `Uart_Receiver` hands to `vSerialPutString` is an initial
segment of the sequence of items whose `xQueueSend` returned `pdPASS`, in the
same order; what is missing from it is exactly what `GLB_Queue` still
holds. -/
theorem C3_fifo_delivery (env : MainEnv) (t0 : TaskId → Nat) (acts : List Action) :
    outputs (run (boot env t0) acts).2 <+: sentOK (run (boot env t0) acts).2 ∧
    sentOK (run (boot env t0) acts).2 =
      outputs (run (boot env t0) acts).2 ++ (run (boot env t0) acts).1.queueItems := by
  have h := run_fifo acts (boot env t0)
  have h0 : (boot env t0).queueItems = [] := by
    simp only [System.queueItems, boot_queue]
    cases env.queueHeapOk <;> simp [xQueueCreate, itemsOf]
  rw [h0, List.nil_append] at h
  exact ⟨⟨_, h.symm⟩, h⟩

/-- C4: non-blocking full/empty failure on the capacity-3 queue `main` creates.
Starting from the empty queue, of `n` timeout-0 sends exactly the first
`min n 3` return `pdPASS` and the later ones return the queue-full failure; the
queue then holds the first `min n 3` messages and a further send leaves it
unchanged.  Of `k` following timeout-0 receives the first `min k (min n 3)`
deliver those messages in send order and the later ones return the
queue-empty failure.  With four messages `a b c d`: three sends pass, the
fourth fails, three receives return `a`, `b`, `c`, the fourth fails. -/
theorem C4_nonblocking_full_empty (created : TaskId → Bool) (ms : List CharPtr) (k : Nat)
    (buffer extra a b c d : CharPtr) :
    (main sourceConfig ⟨true, created⟩).GLB_Queue = some ⟨3, []⟩ ∧
    (sendAll ⟨3, []⟩ ms).2 =
      List.replicate (min ms.length 3) QueueStatus.pdPASS ++
      List.replicate (ms.length - min ms.length 3) QueueStatus.errQUEUE_FULL ∧
    (sendAll ⟨3, []⟩ ms).1 = ⟨3, ms.take 3⟩ ∧
    xQueueSend (sendAll ⟨3, []⟩ (ms ++ [a, b, c])).1 extra =
      ((sendAll ⟨3, []⟩ (ms ++ [a, b, c])).1, QueueStatus.errQUEUE_FULL) ∧
    delivered (receiveN (sendAll ⟨3, []⟩ ms).1 buffer k).2 = (ms.take 3).take k ∧
    (receiveN (sendAll ⟨3, []⟩ ms).1 buffer k).2.map Prod.snd =
      List.replicate (min k (min ms.length 3)) QueueStatus.pdPASS ++
      List.replicate (k - min ms.length 3) QueueStatus.errQUEUE_EMPTY ∧
    sendAll ⟨3, []⟩ [a, b, c, d] =
      (⟨3, [a, b, c]⟩, [QueueStatus.pdPASS, QueueStatus.pdPASS, QueueStatus.pdPASS,
        QueueStatus.errQUEUE_FULL]) ∧
    receiveN ⟨3, [a, b, c]⟩ buffer 4 =
      (⟨3, []⟩, [(a, QueueStatus.pdPASS), (b, QueueStatus.pdPASS), (c, QueueStatus.pdPASS),
        (c, QueueStatus.errQUEUE_EMPTY)]) := by
  have hs := sendAll_spec ms ⟨3, []⟩ (by simp)
  simp only [List.length_nil, Nat.sub_zero, List.nil_append] at hs
  obtain ⟨h1, h2, h3⟩ := hs
  have hq : (sendAll ⟨3, []⟩ ms).1 = ⟨3, ms.take 3⟩ := by
    rcases hx : (sendAll ⟨3, []⟩ ms).1 with ⟨cap, items⟩
    rw [hx] at h1 h2
    simp only at h1 h2
    rw [h1, h2]
  have hr := receiveN_spec k (sendAll ⟨3, []⟩ ms).1 buffer
  rw [hq] at hr
  simp only [List.length_take] at hr
  obtain ⟨_, r2, r3⟩ := hr
  have hs2 := sendAll_spec (ms ++ [a, b, c]) ⟨3, []⟩ (by simp)
  simp only [List.length_nil, Nat.sub_zero, List.nil_append] at hs2
  obtain ⟨g1, g2, _⟩ := hs2
  refine ⟨rfl, ?_, hq, ?_, ?_, ?_, rfl, rfl⟩
  · rw [h3]
    congr 2
    omega
  · have hlen : (sendAll ⟨3, []⟩ (ms ++ [a, b, c])).1.items.length = 3 := by
      rw [g2]; simp
    simp [xQueueSend, g1, hlen]
  · rw [hq]; exact r2
  · rw [hq, r3]
    congr 2
    · omega
    · omega

/-- C5: `Uart_Receiver` never outputs a stale or default message.  In one loop
iteration the events are exactly one `vSerialPutString` of the oldest queued
pointer with length 16 when `GLB_Queue` is non-null and non-empty, and no
event at all otherwise; a `vSerialPutString` occurs if and only if the handle
is non-null and `xQueueReceive` returned `pdPASS`; `ptrtoMSG` becomes the
dequeued pointer, and keeps its old value (initial null or previous message)
when nothing was dequeued. -/
theorem C5_receiver_no_stale_output (g : Option Queue) (l : RxLocals) :
    (Uart_Receiver g l).2.2 = ((itemsOf g).head?.toList.map (fun m => Event.serialPut m 16)) ∧
    ((∃ p len, Event.serialPut p len ∈ (Uart_Receiver g l).2.2) ↔
      ∃ q, g = some q ∧ (xQueueReceive q l.ptrtoMSG).2.2 = QueueStatus.pdPASS) ∧
    (Uart_Receiver g l).2.1.ptrtoMSG = (itemsOf g).head?.getD l.ptrtoMSG ∧
    itemsOf (Uart_Receiver g l).1 = (itemsOf g).tail := by
  rcases g with _ | ⟨cap, items⟩
  · simp [Uart_Receiver, itemsOf]
  · cases items with
    | nil => simp [Uart_Receiver, itemsOf, xQueueReceive]
    | cons m rest => simp [Uart_Receiver, itemsOf, xQueueReceive]

/-- C6 (as amended): `main` validates nothing.  Whatever the six periods, the
queue capacity, the result of `xQueueCreate` and the results of the six
`xTaskPeriodicCreate` calls, `main` calls `vTaskStartScheduler` exactly once,
as the last of its calls.  A null queue handle is tolerated at run time by the
`GLB_Queue != 0` guards of the task bodies: when `xQueueCreate` fails the
handle `main` stores is null, and every interleaving of loop iterations of the
six task bodies then leaves it null and performs no `xQueueSend` and no
`vSerialPutString` at all. -/
theorem C6_main_always_starts_scheduler (cfg : Config) (env : MainEnv)
    (created : TaskId → Bool) (t0 : TaskId → Nat) (acts : List Action) :
    (main cfg env).calls.getLast? = some Call.vTaskStartScheduler ∧
    (main cfg env).calls.count Call.vTaskStartScheduler = 1 ∧
    (main cfg ⟨false, created⟩).GLB_Queue = none ∧
    (boot ⟨false, created⟩ t0).GLB_Queue = (main sourceConfig ⟨false, created⟩).GLB_Queue ∧
    (run (boot ⟨false, created⟩ t0) acts).1.GLB_Queue = none ∧
    (run (boot ⟨false, created⟩ t0) acts).2 = [] := by
  have hnull := run_null acts (boot ⟨false, created⟩ t0) rfl
  refine ⟨rfl, ?_, rfl, rfl, hnull.1, hnull.2⟩
  simp [main, List.count_cons]

/-- C6, the claim as stated fails: with a zero period, zero capacity, a null
queue handle and every task creation failing, `main` still calls
`vTaskStartScheduler`. -/
theorem C6_counterexample :
    (main ⟨0, 50, 100, 20, 10, 100, 0⟩ ⟨false, fun _ => false⟩).GLB_Queue = none ∧
    (main ⟨0, 50, 100, 20, 10, 100, 0⟩ ⟨false, fun _ => false⟩).handlers = [] ∧
    Call.vTaskStartScheduler ∈
      (main ⟨0, 50, 100, 20, 10, 100, 0⟩ ⟨false, fun _ => false⟩).calls := by
  refine ⟨rfl, rfl, ?_⟩
  simp [main]

/-- C7: edge detection of the button monitors.  With `GLB_Queue` non-null and
readings that fit a `char`, after any interleaving `pre` (previous reading 0
when the monitor has not run yet) an iteration of `Button_1_Monitor` with
reading `r` attempts exactly "B1 Rising Edge." if `r = 1` and the previous
reading is 0, exactly "B1 Falling Edge" if `r = 0` and the previous reading is
1, and nothing otherwise; it produces no other event and leaves `r` as the
previous state.  The same holds for `Button_2_Monitor` with its messages. -/
theorem C7_edge_detection (env : MainEnv) (t0 : TaskId → Nat) (pre : List Action) (r : Nat)
    (hq : env.queueHeapOk = true) (hpre : readingsBelow 256 pre = true) (hr : r < 256) :
    (attempts TaskId.B1 (step (run (boot env t0) pre).1 (Action.b1 r)).2 =
        (if r = 1 ∧ lastReadingFrom TaskId.B1 0 pre = 0 then [some "B1 Rising Edge."]
         else if r = 0 ∧ lastReadingFrom TaskId.B1 0 pre = 1 then [some "B1 Falling Edge"]
         else []) ∧
      (step (run (boot env t0) pre).1 (Action.b1 r)).2.length =
        (attempts TaskId.B1 (step (run (boot env t0) pre).1 (Action.b1 r)).2).length ∧
      (step (run (boot env t0) pre).1 (Action.b1 r)).1.b1.Previousstate = r) ∧
    (attempts TaskId.B2 (step (run (boot env t0) pre).1 (Action.b2 r)).2 =
        (if r = 1 ∧ lastReadingFrom TaskId.B2 0 pre = 0 then [some "B2 Rising Edge."]
         else if r = 0 ∧ lastReadingFrom TaskId.B2 0 pre = 1 then [some "B2 Falling Edge"]
         else []) ∧
      (step (run (boot env t0) pre).1 (Action.b2 r)).2.length =
        (attempts TaskId.B2 (step (run (boot env t0) pre).1 (Action.b2 r)).2).length ∧
      (step (run (boot env t0) pre).1 (Action.b2 r)).1.b2.Previousstate = r) := by
  have hsome : (run (boot env t0) pre).1.GLB_Queue.isSome = true := by
    rw [run_isSome, boot_isSome]; exact hq
  have hmod : r % 256 = r := Nat.mod_eq_of_lt hr
  have h1 := step_button_attempts (run (boot env t0) pre).1 TaskId.B1 (Or.inl rfl) r hsome
  have h2 := step_button_attempts (run (boot env t0) pre).1 TaskId.B2 (Or.inr rfl) r hsome
  have p1 := step_button_prev (run (boot env t0) pre).1 TaskId.B1 (Or.inl rfl) r
  have p2 := step_button_prev (run (boot env t0) pre).1 TaskId.B2 (Or.inr rfl) r
  rw [run_previousState TaskId.B1 pre _ hpre, boot_previousState, hmod] at h1
  rw [run_previousState TaskId.B2 pre _ hpre, boot_previousState, hmod] at h2
  rw [hmod] at p1 p2
  exact ⟨⟨h1.1, h1.2, p1⟩, ⟨h2.1, h2.2, p2⟩⟩

/-- C7 at a concrete input: after a reading of 1, a reading of 0 makes
`Button_1_Monitor` attempt exactly "B1 Falling Edge". -/
theorem C7_edge_detection_witness :
    attempts TaskId.B1
      (step (run (boot ⟨true, fun _ => true⟩ (fun _ => 0)) [Action.b1 1]).1 (Action.b1 0)).2 =
      [some "B1 Falling Edge"] := by
  have h := (C7_edge_detection ⟨true, fun _ => true⟩ (fun _ => 0) [Action.b1 1] 0 rfl
    (by decide) (by decide)).1.1
  simpa [lastReadingFrom] using h

/-- C8: fixed-length payload.  Each of the five producer literals has 15
visible characters and occupies 16 bytes with its terminating NUL.  In every
run, every event is either an `xQueueSend` of a pointer to one of these
literals or a `vSerialPutString` of such a pointer with length 16, and reading
16 bytes there yields exactly the bytes of that literal, within the object. -/
theorem C8_fixed_length_payload (env : MainEnv) (t0 : TaskId → Nat) (acts : List Action)
    (e : Event) (he : e ∈ (run (boot env t0) acts).2) :
    messageLiterals.map String.length = [15, 15, 15, 15, 15] ∧
    messageLiterals.map (fun lit => (cStringBytes lit).length) = [16, 16, 16, 16, 16] ∧
    ∃ lit, lit ∈ messageLiterals ∧ (cStringBytes lit).length = 16 ∧
      ((∃ t res, e = Event.queueSend t (some lit) res) ∨
        (e = Event.serialPut (some lit) 16 ∧
          vSerialPutString (some lit) 16 = some (cStringBytes lit))) := by
  refine ⟨by decide, by decide, ?_⟩
  obtain ⟨lit, hl, h⟩ := run_literals acts (boot env t0)
    (by rw [boot_queueItems]; simp) e he
  refine ⟨lit, hl, (literal_bytes lit hl).1, ?_⟩
  rcases h with h | h
  · exact Or.inl h
  · exact Or.inr ⟨h, (literal_bytes lit hl).2⟩

/-- C8 at a concrete input: after one transmitter and one receiver iteration,
the serial event carries the transmitter literal with length 16. -/
theorem C8_fixed_length_payload_witness :
    Event.serialPut (some "Tx ...String...") 16 ∈
        (run (boot ⟨true, fun _ => true⟩ (fun _ => 0)) [Action.tx, Action.rx]).2 ∧
    ∃ lit, lit ∈ messageLiterals ∧ (cStringBytes lit).length = 16 ∧
      ((∃ t res, Event.serialPut (some "Tx ...String...") 16 = Event.queueSend t (some lit) res) ∨
        (Event.serialPut (some "Tx ...String...") 16 = Event.serialPut (some lit) 16 ∧
          vSerialPutString (some lit) 16 = some (cStringBytes lit))) :=
  ⟨by decide,
   (C8_fixed_length_payload ⟨true, fun _ => true⟩ (fun _ => 0) [Action.tx, Action.rx]
      (Event.serialPut (some "Tx ...String...") 16) (by decide)).2.2⟩

/-- C9 (as amended): alternation of edge messages.  With `GLB_Queue` non-null,
for every interleaving whose pin readings are all 0 or 1, the messages
`Button_1_Monitor` attempts to send are only "B1 Rising Edge." and
"B1 Falling Edge", no two consecutive ones are equal, the first one (if any)
is the rising message, and the number of rising messages is the number of
falling messages plus the last reading of the pin (0 before the first
reading), which is 0 or 1.  Likewise for `Button_2_Monitor`. -/
theorem C9_edge_alternation (env : MainEnv) (t0 : TaskId → Nat) (acts : List Action)
    (hq : env.queueHeapOk = true) (hb : readingsBelow 2 acts = true) :
    ((attempts TaskId.B1 (run (boot env t0) acts).2).Chain' (fun x y => x ≠ y) ∧
      (∀ m ∈ attempts TaskId.B1 (run (boot env t0) acts).2,
        m = some "B1 Rising Edge." ∨ m = some "B1 Falling Edge") ∧
      ((attempts TaskId.B1 (run (boot env t0) acts).2).head? = none ∨
        (attempts TaskId.B1 (run (boot env t0) acts).2).head? =
          some (some "B1 Rising Edge.")) ∧
      (attempts TaskId.B1 (run (boot env t0) acts).2).count (some "B1 Rising Edge.") =
        (attempts TaskId.B1 (run (boot env t0) acts).2).count (some "B1 Falling Edge") +
          lastReadingFrom TaskId.B1 0 acts ∧
      lastReadingFrom TaskId.B1 0 acts ≤ 1) ∧
    ((attempts TaskId.B2 (run (boot env t0) acts).2).Chain' (fun x y => x ≠ y) ∧
      (∀ m ∈ attempts TaskId.B2 (run (boot env t0) acts).2,
        m = some "B2 Rising Edge." ∨ m = some "B2 Falling Edge") ∧
      ((attempts TaskId.B2 (run (boot env t0) acts).2).head? = none ∨
        (attempts TaskId.B2 (run (boot env t0) acts).2).head? =
          some (some "B2 Rising Edge.")) ∧
      (attempts TaskId.B2 (run (boot env t0) acts).2).count (some "B2 Rising Edge.") =
        (attempts TaskId.B2 (run (boot env t0) acts).2).count (some "B2 Falling Edge") +
          lastReadingFrom TaskId.B2 0 acts ∧
      lastReadingFrom TaskId.B2 0 acts ≤ 1) := by
  have hsome : (boot env t0).GLB_Queue.isSome = true := by rw [boot_isSome]; exact hq
  have h256 := readingsBelow_mono (by norm_num : 2 ≤ 256) acts hb
  have key : ∀ T, T = TaskId.B1 ∨ T = TaskId.B2 →
      Alternates (risingMsg T) (fallingMsg T) (lastReadingFrom T 0 acts)
        (attempts T (run (boot env t0) acts).2) := by
    intro T hT
    have h := run_alternates T hT acts (boot env t0) [] hsome hb
      (by rw [boot_previousState]; exact alternates_nil _ _)
    rw [run_previousState T acts _ h256, boot_previousState] at h
    simpa using h
  have fin : ∀ (R F : CharPtr) (p : Nat) (l : List CharPtr), Alternates R F p l →
      l.Chain' (fun x y => x ≠ y) ∧ (∀ m ∈ l, m = R ∨ m = F) ∧
      (l.head? = none ∨ l.head? = some R) ∧ l.count R = l.count F + p ∧ p ≤ 1 := by
    intro R F p l h
    refine ⟨h.1, h.2.1, h.2.2.1, h.2.2.2.2, ?_⟩
    rcases h.2.2.2.1 with ⟨h0, _⟩ | ⟨h1, _⟩ <;> omega
  exact ⟨fin _ _ _ _ (key TaskId.B1 (Or.inl rfl)), fin _ _ _ _ (key TaskId.B2 (Or.inr rfl))⟩

/-- C9 at a concrete input: readings 1, 0, 1 of button 1 give two rising
messages and one falling message. -/
theorem C9_edge_alternation_witness :
    readingsBelow 2 [Action.b1 1, Action.b1 0, Action.rx, Action.b1 1] = true ∧
    (attempts TaskId.B1 (run (boot ⟨true, fun _ => true⟩ (fun _ => 0))
        [Action.b1 1, Action.b1 0, Action.rx, Action.b1 1]).2).count
        (some "B1 Rising Edge.") =
      (attempts TaskId.B1 (run (boot ⟨true, fun _ => true⟩ (fun _ => 0))
        [Action.b1 1, Action.b1 0, Action.rx, Action.b1 1]).2).count
        (some "B1 Falling Edge") +
      lastReadingFrom TaskId.B1 0 [Action.b1 1, Action.b1 0, Action.rx, Action.b1 1] :=
  ⟨by decide,
   (C9_edge_alternation ⟨true, fun _ => true⟩ (fun _ => 0)
      [Action.b1 1, Action.b1 0, Action.rx, Action.b1 1] rfl (by decide)).1.2.2.2.1⟩

/-- C9, the claim as stated fails when `xQueueCreate` returned `NULL`: the
single reading 1 is a rising edge, yet no message is attempted, so the number
of rising minus falling messages is 0 while the last reading is 1. -/
theorem C9_counterexample :
    readingsBelow 2 [Action.b1 1] = true ∧
    attempts TaskId.B1
      (run (boot ⟨false, fun _ => true⟩ (fun _ => 0)) [Action.b1 1]).2 = [] ∧
    lastReadingFrom TaskId.B1 0 [Action.b1 1] = 1 ∧
    (attempts TaskId.B1
        (run (boot ⟨false, fun _ => true⟩ (fun _ => 0)) [Action.b1 1]).2).count
        (some "B1 Rising Edge.") -
      (attempts TaskId.B1
        (run (boot ⟨false, fun _ => true⟩ (fun _ => 0)) [Action.b1 1]).2).count
        (some "B1 Falling Edge") ≠
      lastReadingFrom TaskId.B1 0 [Action.b1 1] := by
  decide

/-- C10: sufficiency of the 3-slot queue.  All tasks start at tick 0, the job
of a task runs atomically at every multiple of its period (50, 50, 100, 20,
10, 100) and simultaneous jobs run in one fixed order of the six tasks.  Then
for all pin readings and every horizon, every `xQueueSend` issued returns
`pdPASS`, which it does exactly when it finds fewer items than the capacity;
the capacity is 3 throughout, so no message is dropped. -/
theorem C10_queue_sufficient (order : List TaskId) (horder : order.Perm allTasks)
    (r1 r2 : Nat → Nat) (env : MainEnv) (horizon : Nat)
    (c : TaskId) (m : CharPtr) (res : QueueStatus)
    (hmem : Event.queueSend c m res ∈
      (run (boot env (fun _ => 0)) (schedule order r1 r2 horizon)).2) :
    res = QueueStatus.pdPASS ∧
    (∀ (q : Queue) (item : CharPtr),
      (xQueueSend q item).2 = QueueStatus.pdPASS ↔ q.items.length < q.capacity) ∧
    (run (boot env (fun _ => 0)) (schedule order r1 r2 horizon)).1.GLB_Queue.map
      Queue.capacity = (if env.queueHeapOk then some 3 else none) := by
  have h := schedule_sound order horder r1 r2 (boot env (fun _ => 0)) (boot_QInv env _) horizon
  refine ⟨h.2 c m res hmem, ?_, ?_⟩
  · intro q item
    by_cases hlt : q.items.length < q.capacity <;> simp [xQueueSend, hlt]
  · rw [run_capacity, boot_queue]
    cases env.queueHeapOk <;> simp [xQueueCreate]

/-- C10 at a concrete input: with both buttons pressed at tick 0 and the tasks
in creation order, the third send of tick 0 (the transmitter's) passes. -/
theorem C10_queue_sufficient_witness :
    allTasks.Perm allTasks ∧
    Event.queueSend TaskId.Tx (some "Tx ...String...") QueueStatus.pdPASS ∈
      (run (boot ⟨true, fun _ => true⟩ (fun _ => 0))
        (schedule allTasks (fun _ => 1) (fun _ => 1) 1)).2 ∧
    (run (boot ⟨true, fun _ => true⟩ (fun _ => 0))
        (schedule allTasks (fun _ => 1) (fun _ => 1) 1)).1.GLB_Queue.map Queue.capacity =
      some 3 :=
  ⟨List.Perm.refl _, by decide,
   (C10_queue_sufficient allTasks (List.Perm.refl _) (fun _ => 1) (fun _ => 1)
      ⟨true, fun _ => true⟩ 1 TaskId.Tx (some "Tx ...String...") QueueStatus.pdPASS
      (by decide)).2.2⟩

end EDFScheduler
